import Mathlib

/-!
# Verification of the MSAnalyzer parsing layer

A shallow embedding of `src/parser.py` (class `MassSpecParser`): the ASCII
block decoder `parse_ascii` and the netCDF binary decoder `parse_cdf`.

Modelling conventions:
* A file's text content is a list of lines (`List String`); the path argument
  is replaced by the precomputed basename (the code derives it with
  `os.path.splitext(os.path.basename(path))[0]` and uses it only to build
  labels).
* Python floats are modelled as exact rationals (`PyQ`); `float(...)` on a
  string token is modelled by `parseFloatL`, which covers the decimal and
  exponent forms relevant here (no underscores, inf or nan, which never
  occur in matched header captures).
* The regular expressions `_FUNC_RE`, `_SCAN_RE` and `_RT_RE` are modelled
  directly by the matching functions `funcMatch`, `scanMatch` and `rtMatch`,
  with `re.IGNORECASE` modelled by comparing lowered characters and `\s`
  restricted to ASCII whitespace.
* The netCDF dataset is modelled as an association list from variable names
  to arrays of `PyQ` values; `KeyError`/`ValueError`/`IndexError` propagation is
  modelled with `Except`.
-/

/-- ASCII whitespace as matched by Python's `str.strip` / `\s`
(restricted to the ASCII range). -/
def pyIsSpace (c : Char) : Bool :=
  c = ' ' || c = '\t' || c = '\n' || c = '\r' || c = '\x0b' || c = '\x0c'

/-- `str.strip()`: drop whitespace from both ends. -/
def pyStrip (cs : List Char) : List Char :=
  ((cs.dropWhile pyIsSpace).reverse.dropWhile pyIsSpace).reverse

/-- Value of a run of decimal digits (`int(...)` on a `\d+` capture). -/
def digitsToNat (ds : List Char) : Nat :=
  ds.foldl (fun n c => 10 * n + (c.toNat - 48)) 0

/-- `re.split(r"\s+", line)` on an already stripped line: whitespace runs
separate tokens and the stripped line has no leading/trailing whitespace,
so no empty tokens arise; splitting on every whitespace character and
discarding empty chunks is equivalent on such input. -/
def splitWsStripped (cs : List Char) : List (List Char) :=
  (cs.splitOnP pyIsSpace).filter (fun t => !t.isEmpty)

/-- Exact rational numbers representing Python numeric values (float and
integer array entries).  A custom type with structurally computable
arithmetic is used so that concrete runs of the decoders can be checked by
evaluation; values are normalized (coprime numerator/denominator, positive
denominator) by the smart constructor `mkQ`, so propositional equality is
numeric equality. -/
structure PyQ where
  num : Int
  den : Nat
deriving DecidableEq

/-- Integer division truncated toward zero (exact on the divisions below). -/
def truncDiv (n : Int) (d : Nat) : Int :=
  if 0 ≤ n then ((n.toNat / d : Nat) : Int) else -(((-n).toNat / d : Nat) : Int)

/-- Normalized rational `n / d` (`d` positive in every use). -/
def mkQ (n : Int) (d : Nat) : PyQ :=
  let g := Nat.gcd n.natAbs d
  if g = 0 then ⟨0, 1⟩ else ⟨truncDiv n g, d / g⟩

def PyQ.ofNat (n : Nat) : PyQ := ⟨(n : Int), 1⟩

instance (n : Nat) : OfNat PyQ n := ⟨PyQ.ofNat n⟩

def PyQ.neg (a : PyQ) : PyQ := ⟨-a.num, a.den⟩

def PyQ.add (a b : PyQ) : PyQ :=
  mkQ (a.num * (b.den : Int) + b.num * (a.den : Int)) (a.den * b.den)

def PyQ.mul (a b : PyQ) : PyQ := mkQ (a.num * b.num) (a.den * b.den)

/-- `a / b` (used only with nonzero `b`: powers of ten). -/
def PyQ.div (a b : PyQ) : PyQ :=
  let n := a.num * (b.den : Int)
  let d := b.num * (a.den : Int)
  if d < 0 then mkQ (-n) d.natAbs else mkQ n d.natAbs

/-- Optional exponent suffix of a Python float literal (`e`/`E`, optional
sign, digits), applied to an already parsed mantissa.  Returns `none` when
the remaining characters are not a valid exponent. -/
def parseExpPart (m : PyQ) : List Char → Option PyQ
  | [] => some m
  | c :: r =>
    if c = 'e' || c = 'E' then
      let neg := r.head? == some '-'
      let r1 := if r.head? == some '+' || r.head? == some '-' then r.tail else r
      let ed := r1.takeWhile Char.isDigit
      if ed.isEmpty || !(r1.drop ed.length).isEmpty then none
      else if neg then some (m.div (PyQ.ofNat (10 ^ digitsToNat ed)))
      else some (m.mul (PyQ.ofNat (10 ^ digitsToNat ed)))
    else none

/-- Python's `float(...)` on a whitespace-free token, modelled over the
decimal forms `[sign] (digits [. digits*] | . digits+) [exp]`. -/
def parseFloatL (cs : List Char) : Option PyQ :=
  let neg := cs.head? == some '-'
  let cs0 := if cs.head? == some '+' || cs.head? == some '-' then cs.tail else cs
  let ip := cs0.takeWhile Char.isDigit
  let cs1 := cs0.drop ip.length
  let signed : PyQ → PyQ := fun q => if neg then q.neg else q
  if cs1.head? == some '.' then
    let fp := cs1.tail.takeWhile Char.isDigit
    let cs2 := cs1.tail.drop fp.length
    if ip.isEmpty && fp.isEmpty then none
    else
      parseExpPart
        (signed ((PyQ.ofNat (digitsToNat ip)).add
          ((PyQ.ofNat (digitsToNat fp)).div (PyQ.ofNat (10 ^ fp.length))))) cs2
  else
    if ip.isEmpty then none
    else parseExpPart (signed (PyQ.ofNat (digitsToNat ip))) cs1

/-- Case-insensitive literal prefix match (the `re.IGNORECASE` flag applied
to a literal pattern); returns the remaining input on success. -/
def ciPrefixMatch : List Char → List Char → Option (List Char)
  | [], rest => some rest
  | _ :: _, [] => none
  | p :: ps, c :: cs =>
    if p.toLower = c.toLower then ciPrefixMatch ps cs else none

/-- `\s+`: one or more whitespace characters (greedy; the following pattern
pieces here never match whitespace, so greediness is exact). -/
def matchSpaces1 : List Char → Option (List Char)
  | [] => none
  | c :: rest => if pyIsSpace c then some (rest.dropWhile pyIsSpace) else none

/-- The capture of `([0-9]*\.?[0-9]+)` under leftmost-greedy backtracking:
a maximal digit run, optionally extended by a dot and a further nonempty
digit run; the dot is dropped (backtracked) when no digit follows it. -/
def capNum (cs : List Char) : Option (List Char) :=
  let a := cs.takeWhile Char.isDigit
  let r := cs.drop a.length
  if r.head? == some '.' then
    let b := r.tail.takeWhile Char.isDigit
    if b.isEmpty then (if a.isEmpty then none else some a)
    else some (a ++ '.' :: b)
  else if a.isEmpty then none else some a

/-- `_FUNC_RE = ^FUNCTION\s+(\d+)` (IGNORECASE), returning `int(group(1))`. -/
def funcMatch (cs : List Char) : Option Nat :=
  match ciPrefixMatch "FUNCTION".toList cs with
  | none => none
  | some r1 =>
    match matchSpaces1 r1 with
    | none => none
    | some r2 =>
      let ds := r2.takeWhile Char.isDigit
      if ds.isEmpty then none else some (digitsToNat ds)

/-- `_SCAN_RE = ^Scan\s+(\d+)` (IGNORECASE), returning `int(group(1))`. -/
def scanMatch (cs : List Char) : Option Nat :=
  match ciPrefixMatch "Scan".toList cs with
  | none => none
  | some r1 =>
    match matchSpaces1 r1 with
    | none => none
    | some r2 =>
      let ds := r2.takeWhile Char.isDigit
      if ds.isEmpty then none else some (digitsToNat ds)

/-- `_RT_RE = ^Retention Time\s+([0-9]*\.?[0-9]+)` (IGNORECASE), returning
the captured group. -/
def rtMatch (cs : List Char) : Option (List Char) :=
  match ciPrefixMatch "Retention Time".toList cs with
  | none => none
  | some r1 =>
    match matchSpaces1 r1 with
    | none => none
    | some r2 => capNum r2

/-- One output row: `(Scan, Retention Time, Channel, Intensity)`. -/
structure Row where
  scan : Nat
  rt : PyQ
  channel : PyQ
  intensity : PyQ
deriving DecidableEq

/-- The output mapping: insertion-ordered association list, modelling the
Python `dict` built with `setdefault`. -/
abbrev FuncMap := List (String × List Row)

/-- Association-list lookup (first occurrence), i.e. `dict.__getitem__`. -/
def lookupA (m : FuncMap) (k : String) : Option (List Row) :=
  match m with
  | [] => none
  | kv :: rest => if kv.1 = k then some kv.2 else lookupA rest k

/-- `key in dict`. -/
def containsKey (m : FuncMap) (k : String) : Bool :=
  match m with
  | [] => false
  | kv :: rest => if kv.1 = k then true else containsKey rest k

/-- `dict.setdefault(key, [])`: insert an empty table at the end when the
key is absent; otherwise leave the mapping unchanged. -/
def setdefaultA (m : FuncMap) (k : String) : FuncMap :=
  if containsKey m k then m else m ++ [(k, [])]

/-- `dict.setdefault(key, []).append(row)`: append the row to the key's
table, inserting the key (at the end) when absent. -/
def appendRow (m : FuncMap) (k : String) (r : Row) : FuncMap :=
  if containsKey m k then
    m.map (fun kv => if kv.1 = k then (kv.1, kv.2 ++ [r]) else kv)
  else m ++ [(k, [r])]

/-- The ASCII scanner's state: accumulated tables plus the current
function/scan/retention-time registers. -/
structure AState where
  functions : FuncMap
  currentFunction : Option Nat
  currentScan : Option Nat
  currentRt : Option PyQ
deriving DecidableEq

def initState : AState := ⟨[], none, none, none⟩

/-- `f"{basename}_Function_{n}"`. -/
def mkKey (basename : String) (n : Nat) : String :=
  basename ++ "_Function_" ++ toString n

/-- The final (data-line) stage of the line loop: emit a row when the
function/scan/retention-time registers are all set and the line splits into
exactly two parseable numeric tokens; drop the line otherwise. -/
def dataStep (basename : String) (st : AState) (line : List Char) : AState :=
  match st.currentFunction, st.currentScan, st.currentRt with
  | some f, some sc, some rt =>
    match splitWsStripped line with
    | [t1, t2] =>
      match parseFloatL t1, parseFloatL t2 with
      | some ch, some inten =>
        { st with functions :=
            appendRow st.functions (mkKey basename f) ⟨sc, rt, ch, inten⟩ }
      | _, _ => st
    | _ => st
  | _, _, _ => st

/-- The header-matching stages of the line loop (function, scan,
retention-time patterns, in the code's priority order), falling through to
the data stage. -/
def stepLine (basename : String) (st : AState) (line : List Char) : AState :=
  match funcMatch line with
  | some n =>
    { functions := setdefaultA st.functions (mkKey basename n)
      currentFunction := some n
      currentScan := none
      currentRt := none }
  | none =>
    match scanMatch line with
    | some s => { st with currentScan := some s }
    | none =>
      match rtMatch line with
      | some cap => { st with currentRt := parseFloatL cap }
      | none => dataStep basename st line

/-- One iteration of the line loop of `parse_ascii`: strip the raw line,
skip it when empty, otherwise run the header/data stages. -/
def processLine (basename : String) (st : AState) (raw : String) : AState :=
  let line := pyStrip raw.toList
  if line.isEmpty then st else stepLine basename st line

/-- The full line loop of `parse_ascii`. -/
def runLines (basename : String) (lines : List String) : AState :=
  lines.foldl (processLine basename) initState

/-- `MassSpecParser.parse_ascii`: run the scanner, then keep only the
labels whose accumulated table is nonempty (in insertion order). -/
def parse_ascii (basename : String) (lines : List String) : FuncMap :=
  (runLines basename lines).functions.filter (fun kv => !kv.2.isEmpty)

/-- Total number of accumulated rows over all labels. -/
def totalRows (m : FuncMap) : Nat :=
  (m.map (fun kv => kv.2.length)).sum

/-- All accumulated rows, in mapping order. -/
def allRows (m : FuncMap) : List Row :=
  (m.map (fun kv => kv.2)).flatten

/-- A netCDF dataset: its `variables` dict, each variable an array of
numbers (all array entries are embedded into `PyQ`). -/
structure Dataset where
  vars : List (String × List PyQ)
deriving DecidableEq

/-- Association-list lookup over the variables dict. -/
def lookupVar (vs : List (String × List PyQ)) (name : String) : Option (List PyQ) :=
  match vs with
  | [] => none
  | kv :: rest => if kv.1 = name then some kv.2 else lookupVar rest name

/-- `name in ds.variables` / `ds.variables[name]`. -/
def Dataset.getVar (ds : Dataset) (name : String) : Option (List PyQ) :=
  lookupVar ds.vars name

/-- Exceptions that can arise inside the guarded variable-reading block of
`parse_cdf` (all are `KeyError`s: a missing dict key or an explicit raise). -/
inductive CdfExc where
  | keyError (arg : String)
deriving DecidableEq

/-- `str(exc)` for a `KeyError`: Python renders the `repr` of its argument,
i.e. the string in quotes. -/
def CdfExc.toMessage : CdfExc → String
  | .keyError a => "\x27" ++ a ++ "\x27"

/-- Errors escaping `parse_cdf`: the wrapping `ValueError`, or the
`IndexError` raised by `point_count[i]` in the (unguarded) row loop. -/
inductive PyErr where
  | valueError (msg : String)
  | indexError (msg : String)
deriving DecidableEq

/-- `ds.variables[name]` with `KeyError` on a missing key. -/
def requireVar (ds : Dataset) (name : String) : Except CdfExc (List PyQ) :=
  match ds.getVar name with
  | some v => .ok v
  | none => .error (.keyError name)

/-- The `mass_values` / `mass_range` / `mz` fallback chain. -/
def readMass (ds : Dataset) : Except CdfExc (List PyQ) :=
  match ds.getVar "mass_values" with
  | some v => .ok v
  | none =>
    match ds.getVar "mass_range" with
    | some v => .ok v
    | none =>
      match ds.getVar "mz" with
      | some v => .ok v
      | none => .error (.keyError "Variable for mass values not found in CDF file")

/-- The `intensity_values` / `intensity` fallback chain. -/
def readIntensity (ds : Dataset) : Except CdfExc (List PyQ) :=
  match ds.getVar "intensity_values" with
  | some v => .ok v
  | none =>
    match ds.getVar "intensity" with
    | some v => .ok v
    | none => .error (.keyError "Variable for intensity values not found in CDF file")

/-- The `scan_acquisition_time` / `scan_time` / `retention_time` chain. -/
def readRt (ds : Dataset) : Except CdfExc (List PyQ) :=
  match ds.getVar "scan_acquisition_time" with
  | some v => .ok v
  | none =>
    match ds.getVar "scan_time" with
    | some v => .ok v
    | none =>
      match ds.getVar "retention_time" with
      | some v => .ok v
      | none => .error (.keyError "Variable for retention time not found in CDF file")

/-- The five arrays read inside the `try` block of `parse_cdf`. -/
structure CdfVars where
  scan_index : List PyQ
  point_count : List PyQ
  mass_values : List PyQ
  intensity_values : List PyQ
  rt_vals : List PyQ
deriving DecidableEq

/-- The guarded variable-reading block of `parse_cdf`. -/
def readVars (ds : Dataset) : Except CdfExc CdfVars := do
  let si ← requireVar ds "scan_index"
  let pc ← requireVar ds "point_count"
  let mv ← readMass ds
  let iv ← readIntensity ds
  let rv ← readRt ds
  return ⟨si, pc, mv, iv, rv⟩

/-- Python `int(...)` on a number: truncation toward zero. -/
def pyInt (q : PyQ) : Int :=
  truncDiv q.num q.den

/-- Normalization of one slice endpoint, as in CPython: negative indices
count from the end (clamped below at 0), nonnegative ones are clamped above
at the length. -/
def pyIdx (len : Nat) (i : Int) : Nat :=
  if i < 0 then (i + len).toNat else min i.toNat len

/-- Python slicing `l[a : b]` (step 1). -/
def pySlice {α : Type} (l : List α) (a b : Int) : List α :=
  (l.take (pyIdx l.length b)).drop (pyIdx l.length a)

/-- The body of one iteration of the scan loop of `parse_cdf`: the rows of
scan index `i` (valid for `i < scan_index.length`, with `point_count[i]`
available, as guarded by `buildRowsList`). -/
def scanRows (v : CdfVars) (i : Nat) : List Row :=
  let start := pyInt (v.scan_index.getD i 0)
  let count := pyInt (v.point_count.getD i 0)
  let channels := pySlice v.mass_values start (start + count)
  let intensities := pySlice v.intensity_values start (start + count)
  let rt := if i < v.rt_vals.length then v.rt_vals.getD i 0 else 0
  (channels.zip intensities).map (fun p => ⟨i + 1, rt, p.1, p.2⟩)

/-- The scan loop: `point_count[i]` raises an uncaught `IndexError` when
`point_count` is shorter than `scan_index` (the loop sits outside the
`try`/`except`); indexing `scan_index[i]` is always in range since the loop
bound is its length, and `rt_vals[i]` is explicitly guarded by the code. -/
def buildRowsList (v : CdfVars) : List Nat → Except PyErr (List Row)
  | [] => .ok []
  | i :: is =>
    if i < v.point_count.length then
      match buildRowsList v is with
      | .ok rs => .ok (scanRows v i ++ rs)
      | .error e => .error e
    else .error (.indexError "index out of range")

/-- `MassSpecParser.parse_cdf` (dataset already opened; the basename stands
for the path).  Exceptions from the variable-reading block are wrapped in a
`ValueError` whose message is `f"CDF parsing error: {exc}"`. -/
def parse_cdf (basename : String) (ds : Dataset) :
    Except PyErr (List (String × List Row)) :=
  match readVars ds with
  | .error e => .error (.valueError ("CDF parsing error: " ++ e.toMessage))
  | .ok v =>
    match buildRowsList v (List.range v.scan_index.length) with
    | .error e => .error e
    | .ok rows => .ok [(mkKey basename 1, rows)]

/-- Spec-side description of the rows of scan `i` (following the claim's
words): with `start = scan_index[i]` and `count = point_count[i]`, one row
per `(channel, intensity)` pair of the sub-ranges `[start, start+count)` of
the flattened channel and intensity arrays, each row carrying `Scan = i+1`
and the retention time of index `i` (with the `0.0` fallback). -/
def specScanRows (v : CdfVars) (i : Nat) : List Row :=
  let start := (pyInt (v.scan_index.getD i 0)).toNat
  let count := (pyInt (v.point_count.getD i 0)).toNat
  let channels := (v.mass_values.drop start).take count
  let intensities := (v.intensity_values.drop start).take count
  let rt := if i < v.rt_vals.length then v.rt_vals.getD i 0 else 0
  (channels.zip intensities).map (fun p => ⟨i + 1, rt, p.1, p.2⟩)

/-- Substring occurrence test (used to state that an error message does, or
does not, mention the file). -/
def occursIn (needle hay : List Char) : Bool :=
  (List.range (hay.length + 1)).any (fun k => needle.isPrefixOf (hay.drop k))

/-! ### Association-list facts -/

theorem lookupA_append_left (m m' : FuncMap) (k : String) (rs : List Row)
    (h : lookupA m k = some rs) : lookupA (m ++ m') k = some rs := by
  induction m with
  | nil => simp [lookupA] at h
  | cons kv rest ih =>
    by_cases hk : kv.1 = k
    · simpa [lookupA, hk] using by simpa [lookupA, hk] using h
    · rw [List.cons_append, lookupA, if_neg hk]
      exact ih (by rwa [lookupA, if_neg hk] at h)

theorem containsKey_false_lookupA (m : FuncMap) (k : String)
    (h : containsKey m k = false) : lookupA m k = none := by
  induction m with
  | nil => rfl
  | cons kv rest ih =>
    rw [containsKey] at h
    by_cases hk : kv.1 = k
    · rw [if_pos hk] at h; exact absurd h (by simp)
    · rw [if_neg hk] at h
      rw [lookupA, if_neg hk]
      exact ih h

theorem lookupA_setdefault (m : FuncMap) (k' k : String) (rs : List Row)
    (h : lookupA m k = some rs) : lookupA (setdefaultA m k') k = some rs := by
  unfold setdefaultA
  split
  · exact h
  · exact lookupA_append_left m _ k rs h

theorem lookupA_mapAppend (m : FuncMap) (k' k : String) (r : Row) (rs : List Row)
    (h : lookupA m k = some rs) :
    lookupA (m.map (fun kv => if kv.1 = k' then (kv.1, kv.2 ++ [r]) else kv)) k
      = some (if k' = k then rs ++ [r] else rs) := by
  induction m with
  | nil => simp [lookupA] at h
  | cons kv rest ih =>
    rw [List.map_cons]
    by_cases hk : kv.1 = k
    · rw [lookupA, if_pos hk] at h
      by_cases hk' : kv.1 = k'
      · have heq : k' = k := hk' ▸ hk
        rw [if_pos hk']
        rw [lookupA, if_pos hk, if_pos heq]
        simp only [Option.some.injEq] at h
        rw [h]
      · have hne : ¬ k' = k := fun he => hk' (he ▸ hk)
        rw [if_neg hk']
        rw [lookupA, if_pos hk, if_neg hne]
        rw [h]
    · by_cases hk' : kv.1 = k'
      · rw [if_pos hk']
        rw [lookupA, if_neg hk]
        rw [lookupA, if_neg hk] at h
        exact ih h
      · rw [if_neg hk']
        rw [lookupA, if_neg hk]
        rw [lookupA, if_neg hk] at h
        exact ih h

theorem lookupA_appendRow (m : FuncMap) (k' k : String) (r : Row) (rs : List Row)
    (h : lookupA m k = some rs) :
    lookupA (appendRow m k' r) k = some (if k' = k then rs ++ [r] else rs) := by
  unfold appendRow
  split
  · exact lookupA_mapAppend m k' k r rs h
  · rename_i hcont
    have hcf : containsKey m k' = false := by
      revert hcont; cases containsKey m k' <;> simp
    have hne : ¬ k' = k := by
      intro he
      rw [he] at hcf
      rw [containsKey_false_lookupA m k hcf] at h
      exact Option.noConfusion h
    rw [if_neg hne]
    exact lookupA_append_left m _ k rs h

theorem totalRows_setdefault (m : FuncMap) (k : String) :
    totalRows (setdefaultA m k) = totalRows m := by
  unfold setdefaultA
  split
  · rfl
  · simp [totalRows]

theorem allRows_setdefault (m : FuncMap) (k : String) :
    allRows (setdefaultA m k) = allRows m := by
  unfold setdefaultA
  split
  · rfl
  · simp [allRows]

theorem mem_allRows_mapAppend (m : FuncMap) (k : String) (r r' : Row)
    (h : r' ∈ allRows (m.map (fun kv => if kv.1 = k then (kv.1, kv.2 ++ [r]) else kv))) :
    r' ∈ allRows m ∨ r' = r := by
  induction m with
  | nil => simp [allRows] at h
  | cons kv rest ih =>
    rw [List.map_cons] at h
    by_cases hk : kv.1 = k
    · rw [if_pos hk] at h
      simp only [allRows, List.map_cons, List.flatten_cons, List.mem_append] at h ⊢
      rcases h with h | h
      · rcases h with h | h
        · exact Or.inl (Or.inl h)
        · exact Or.inr (List.mem_singleton.mp h)
      · rcases ih h with h | h
        · exact Or.inl (Or.inr h)
        · exact Or.inr h
    · rw [if_neg hk] at h
      simp only [allRows, List.map_cons, List.flatten_cons, List.mem_append] at h ⊢
      rcases h with h | h
      · exact Or.inl (Or.inl h)
      · rcases ih h with h | h
        · exact Or.inl (Or.inr h)
        · exact Or.inr h

theorem mem_allRows_appendRow (m : FuncMap) (k : String) (r r' : Row)
    (h : r' ∈ allRows (appendRow m k r)) : r' ∈ allRows m ∨ r' = r := by
  unfold appendRow at h
  split at h
  · exact mem_allRows_mapAppend m k r r' h
  · simp only [allRows, List.map_append, List.flatten_append] at h
    rcases List.mem_append.mp h with h | h
    · exact Or.inl h
    · simp at h
      exact Or.inr h

/-- The label column of the mapping. -/
def keysOf (m : FuncMap) : List String := m.map (fun kv => kv.1)

theorem containsKey_iff_mem (m : FuncMap) (k : String) :
    containsKey m k = true ↔ k ∈ keysOf m := by
  induction m with
  | nil => simp [containsKey, keysOf]
  | cons kv rest ih =>
    rw [containsKey]
    by_cases hk : kv.1 = k
    · simp [keysOf, hk]
    · rw [if_neg hk]
      simp only [keysOf, List.map_cons, List.mem_cons]
      rw [show (k ∈ List.map (fun kv => kv.1) rest) = (k ∈ keysOf rest) from rfl, ← ih]
      constructor
      · exact fun h => Or.inr h
      · rintro (h | h)
        · exact absurd h.symm hk
        · exact h

theorem keysOf_setdefault_noDup (m : FuncMap) (k : String)
    (h : (keysOf m).Nodup) : (keysOf (setdefaultA m k)).Nodup := by
  unfold setdefaultA
  split
  · exact h
  · rename_i hc
    have hk : k ∉ keysOf m := by
      intro hmem
      have := (containsKey_iff_mem m k).mpr hmem
      rw [this] at hc
      exact hc rfl
    simp only [keysOf, List.map_append, List.map_cons, List.map_nil]
    rw [List.nodup_append]
    refine ⟨h, List.nodup_singleton k, ?_⟩
    intro x hx hy
    simp only [List.mem_singleton] at hy
    rw [hy] at hx
    exact hk hx

theorem keysOf_appendRow_noDup (m : FuncMap) (k : String) (r : Row)
    (h : (keysOf m).Nodup) : (keysOf (appendRow m k r)).Nodup := by
  unfold appendRow
  split
  · have : keysOf (m.map (fun kv => if kv.1 = k then (kv.1, kv.2 ++ [r]) else kv)) = keysOf m := by
      unfold keysOf
      rw [List.map_map]
      apply List.map_congr_left
      intro kv _
      by_cases hk : kv.1 = k <;> simp [hk]
    rw [this]
    exact h
  · rename_i hc
    have hk : k ∉ keysOf m := by
      intro hmem
      have := (containsKey_iff_mem m k).mpr hmem
      rw [this] at hc
      exact hc rfl
    simp only [keysOf, List.map_append, List.map_cons, List.map_nil]
    rw [List.nodup_append]
    refine ⟨h, List.nodup_singleton k, ?_⟩
    intro x hx hy
    simp only [List.mem_singleton] at hy
    rw [hy] at hx
    exact hk hx

/-! ### Header-pattern facts -/

theorem funcPat : "FUNCTION".toList = ['F','U','N','C','T','I','O','N'] := rfl

theorem scanPat : "Scan".toList = ['S','c','a','n'] := rfl

theorem rtPat :
    "Retention Time".toList
      = ['R','e','t','e','n','t','i','o','n',' ','T','i','m','e'] := rfl

theorem funcMatch_nil : funcMatch [] = none := rfl

theorem scanMatch_nil : scanMatch [] = none := rfl

theorem rtMatch_nil : rtMatch [] = none := rfl

theorem ciPrefixMatch_head (p : Char) (ps : List Char) (c : Char) (cs : List Char)
    (h : ciPrefixMatch (p :: ps) (c :: cs) ≠ none) : p.toLower = c.toLower := by
  by_contra hne
  rw [ciPrefixMatch, if_neg hne] at h
  exact h rfl

theorem funcMatch_head_ne (c : Char) (cs : List Char)
    (h : c.toLower ≠ 'F'.toLower) : funcMatch (c :: cs) = none := by
  rw [funcMatch, funcPat, ciPrefixMatch, if_neg (fun he => h he.symm)]

theorem scanMatch_head_ne (c : Char) (cs : List Char)
    (h : c.toLower ≠ 'S'.toLower) : scanMatch (c :: cs) = none := by
  rw [scanMatch, scanPat, ciPrefixMatch, if_neg (fun he => h he.symm)]

/-- A line matched by the retention-time pattern is matched by neither the
function pattern nor the scan pattern (distinct leading letters). -/
theorem rtMatch_excludes (cs : List Char) (cap : List Char)
    (h : rtMatch cs = some cap) :
    funcMatch cs = none ∧ scanMatch cs = none ∧ cs ≠ [] := by
  cases cs with
  | nil => rw [rtMatch_nil] at h; exact Option.noConfusion h
  | cons c cs' =>
    have hhead : 'R'.toLower = c.toLower := by
      apply ciPrefixMatch_head 'R' _ c cs'
      intro hnone
      rw [rtMatch, rtPat, hnone] at h
      exact Option.noConfusion h
    constructor
    · exact funcMatch_head_ne c cs' (by rw [← hhead]; decide)
    constructor
    · exact scanMatch_head_ne c cs' (by rw [← hhead]; decide)
    · exact List.cons_ne_nil c cs'

/-- A line matched by the scan pattern is not matched by the function
pattern. -/
theorem scanMatch_excludes (cs : List Char) (s : Nat)
    (h : scanMatch cs = some s) :
    funcMatch cs = none ∧ cs ≠ [] := by
  cases cs with
  | nil => rw [scanMatch_nil] at h; exact Option.noConfusion h
  | cons c cs' =>
    have hhead : 'S'.toLower = c.toLower := by
      apply ciPrefixMatch_head 'S' _ c cs'
      intro hnone
      rw [scanMatch, scanPat, hnone] at h
      exact Option.noConfusion h
    constructor
    · exact funcMatch_head_ne c cs' (by rw [← hhead]; decide)
    · exact List.cons_ne_nil c cs'

theorem funcMatch_ne_nil (cs : List Char) (n : Nat)
    (h : funcMatch cs = some n) : cs ≠ [] := by
  intro he
  rw [he, funcMatch_nil] at h
  exact Option.noConfusion h

/-! ### Step lemmas for the ASCII scanner -/

theorem stepLine_func (b : String) (st : AState) (line : List Char) (n : Nat)
    (h : funcMatch line = some n) :
    stepLine b st line
      = ⟨setdefaultA st.functions (mkKey b n), some n, none, none⟩ := by
  unfold stepLine
  rw [h]

theorem stepLine_scan (b : String) (st : AState) (line : List Char) (s : Nat)
    (h : scanMatch line = some s) :
    stepLine b st line = { st with currentScan := some s } := by
  obtain ⟨hf, -⟩ := scanMatch_excludes line s h
  unfold stepLine
  rw [hf, h]

theorem stepLine_rt (b : String) (st : AState) (line : List Char) (cap : List Char)
    (h : rtMatch line = some cap) :
    stepLine b st line = { st with currentRt := parseFloatL cap } := by
  obtain ⟨hf, hs, -⟩ := rtMatch_excludes line cap h
  unfold stepLine
  rw [hf, hs, h]

theorem stepLine_noHeader (b : String) (st : AState) (line : List Char)
    (hf : funcMatch line = none) (hs : scanMatch line = none)
    (hr : rtMatch line = none) :
    stepLine b st line = dataStep b st line := by
  unfold stepLine
  rw [hf, hs, hr]

theorem dataStep_notReady (b : String) (st : AState) (line : List Char)
    (h : st.currentFunction = none ∨ st.currentScan = none ∨ st.currentRt = none) :
    dataStep b st line = st := by
  obtain ⟨fns, cf, csc, crt⟩ := st
  unfold dataStep
  rcases h with h | h | h
  all_goals simp only at h
  · rw [h]
  · cases cf with
    | none => rfl
    | some f => rw [h]
  · cases cf with
    | none => rfl
    | some f =>
      cases csc with
      | none => rfl
      | some sc => rw [h]

theorem dataStep_ready (b : String) (st : AState) (line : List Char)
    (f sc : Nat) (rt : PyQ)
    (hcf : st.currentFunction = some f) (hcs : st.currentScan = some sc)
    (hcr : st.currentRt = some rt) :
    dataStep b st line = st ∨
    (∃ t1 t2 ch inten, splitWsStripped line = [t1, t2] ∧
       parseFloatL t1 = some ch ∧ parseFloatL t2 = some inten ∧
       dataStep b st line
         = { st with functions :=
               appendRow st.functions (mkKey b f) ⟨sc, rt, ch, inten⟩ }) := by
  obtain ⟨fns, cf, csc, crt⟩ := st
  simp only at hcf hcs hcr
  subst hcf
  subst hcs
  subst hcr
  unfold dataStep
  simp only
  cases hp : splitWsStripped line with
  | nil => left; rfl
  | cons t1 rest =>
    cases rest with
    | nil => left; rfl
    | cons t2 rest2 =>
      cases rest2 with
      | cons t3 rest3 => left; rfl
      | nil =>
        cases hch : parseFloatL t1 with
        | none => simp only [hch]; left; trivial
        | some ch =>
          cases hin : parseFloatL t2 with
          | none => simp only [hch, hin]; left; trivial
          | some inten =>
            simp only [hch, hin]
            right
            exact ⟨t1, t2, ch, inten, rfl, hch, hin, rfl⟩

/-- Exhaustive description of one scanner step: a line either leaves the
state unchanged, starts a function block, sets the scan register, sets the
retention-time register, or (with all three registers set) appends one row
built from the current registers. -/
theorem stepLine_cases (b : String) (st : AState) (line : List Char) :
    stepLine b st line = st ∨
    (∃ n, stepLine b st line
       = ⟨setdefaultA st.functions (mkKey b n), some n, none, none⟩) ∨
    (∃ s, stepLine b st line = { st with currentScan := some s }) ∨
    (∃ cap, stepLine b st line = { st with currentRt := parseFloatL cap }) ∨
    (∃ f sc rt ch inten, st.currentFunction = some f ∧ st.currentScan = some sc ∧
       st.currentRt = some rt ∧
       stepLine b st line
         = { st with functions :=
               appendRow st.functions (mkKey b f) ⟨sc, rt, ch, inten⟩ }) := by
  cases hf : funcMatch line with
  | some n => exact Or.inr (Or.inl ⟨n, stepLine_func b st line n hf⟩)
  | none =>
    cases hs : scanMatch line with
    | some s => exact Or.inr (Or.inr (Or.inl ⟨s, stepLine_scan b st line s hs⟩))
    | none =>
      cases hr : rtMatch line with
      | some cap =>
        exact Or.inr (Or.inr (Or.inr (Or.inl ⟨cap, stepLine_rt b st line cap hr⟩)))
      | none =>
        have hd := stepLine_noHeader b st line hf hs hr
        obtain ⟨fns, cf, csc, crt⟩ := st
        cases cf with
        | none => exact Or.inl (hd.trans (dataStep_notReady b _ line (Or.inl rfl)))
        | some f =>
          cases csc with
          | none =>
            exact Or.inl (hd.trans (dataStep_notReady b _ line (Or.inr (Or.inl rfl))))
          | some sc =>
            cases crt with
            | none =>
              exact Or.inl
                (hd.trans (dataStep_notReady b _ line (Or.inr (Or.inr rfl))))
            | some rt =>
              rcases dataStep_ready b ⟨fns, some f, some sc, some rt⟩ line f sc rt
                  rfl rfl rfl with h | h
              · exact Or.inl (hd.trans h)
              · obtain ⟨t1, t2, ch, inten, -, -, -, heq⟩ := h
                exact Or.inr (Or.inr (Or.inr (Or.inr
                  ⟨f, sc, rt, ch, inten, rfl, rfl, rfl, hd.trans heq⟩)))

/-- The same case description lifted to `processLine`. -/
theorem processLine_cases (b : String) (st : AState) (raw : String) :
    processLine b st raw = st ∨
    (∃ n, processLine b st raw
       = ⟨setdefaultA st.functions (mkKey b n), some n, none, none⟩) ∨
    (∃ s, processLine b st raw = { st with currentScan := some s }) ∨
    (∃ cap, processLine b st raw = { st with currentRt := parseFloatL cap }) ∨
    (∃ f sc rt ch inten, st.currentFunction = some f ∧ st.currentScan = some sc ∧
       st.currentRt = some rt ∧
       processLine b st raw
         = { st with functions :=
               appendRow st.functions (mkKey b f) ⟨sc, rt, ch, inten⟩ }) := by
  unfold processLine
  by_cases he : (pyStrip raw.toList).isEmpty = true
  · rw [if_pos he]
    exact Or.inl rfl
  · rw [if_neg he]
    exact stepLine_cases b st (pyStrip raw.toList)

/-! ### Fold-level invariants of the ASCII scanner -/

theorem lookupA_processLine (b : String) (st : AState) (raw : String)
    (key : String) (rows : List Row)
    (h : lookupA st.functions key = some rows) :
    ∃ d, lookupA (processLine b st raw).functions key = some (rows ++ d) := by
  rcases processLine_cases b st raw with
    h1 | ⟨n, h1⟩ | ⟨s, h1⟩ | ⟨cap, h1⟩ | ⟨f, sc, rt, ch, inten, -, -, -, h1⟩
  · exact ⟨[], by rw [h1, List.append_nil]; exact h⟩
  · exact ⟨[], by rw [h1, List.append_nil]; exact lookupA_setdefault _ _ _ _ h⟩
  · exact ⟨[], by rw [h1, List.append_nil]; exact h⟩
  · exact ⟨[], by rw [h1, List.append_nil]; exact h⟩
  · by_cases hk : mkKey b f = key
    · refine ⟨[⟨sc, rt, ch, inten⟩], ?_⟩
      rw [h1]
      have := lookupA_appendRow st.functions (mkKey b f) key ⟨sc, rt, ch, inten⟩ rows h
      rw [if_pos hk] at this
      exact this
    · refine ⟨[], ?_⟩
      rw [h1, List.append_nil]
      have := lookupA_appendRow st.functions (mkKey b f) key ⟨sc, rt, ch, inten⟩ rows h
      rw [if_neg hk] at this
      exact this

theorem lookupA_foldl (b : String) (ls : List String) (st : AState)
    (key : String) (rows : List Row)
    (h : lookupA st.functions key = some rows) :
    ∃ d, lookupA ((ls.foldl (processLine b) st)).functions key = some (rows ++ d) := by
  induction ls generalizing st rows with
  | nil => exact ⟨[], by rw [List.foldl_nil, List.append_nil]; exact h⟩
  | cons l ls ih =>
    obtain ⟨d1, h1⟩ := lookupA_processLine b st l key rows h
    obtain ⟨d2, h2⟩ := ih _ _ h1
    exact ⟨d1 ++ d2, by rw [List.foldl_cons, ← List.append_assoc]; exact h2⟩

theorem notReady_totalRows (b : String) (st : AState) (raw : String)
    (h : st.currentFunction = none ∨ st.currentScan = none ∨ st.currentRt = none) :
    totalRows (processLine b st raw).functions = totalRows st.functions := by
  rcases processLine_cases b st raw with
    h1 | ⟨n, h1⟩ | ⟨s, h1⟩ | ⟨cap, h1⟩ | ⟨f, sc, rt, ch, inten, hcf, hcs, hcr, h1⟩
  · rw [h1]
  · rw [h1]; exact totalRows_setdefault _ _
  · rw [h1]
  · rw [h1]
  · rcases h with h | h | h
    · rw [h] at hcf; exact Option.noConfusion hcf
    · rw [h] at hcs; exact Option.noConfusion hcs
    · rw [h] at hcr; exact Option.noConfusion hcr

theorem allRows_processLine_mem (b : String) (st : AState) (raw : String) (r : Row)
    (h : r ∈ allRows (processLine b st raw).functions) :
    r ∈ allRows st.functions ∨
      (st.currentScan = some r.scan ∧ st.currentRt = some r.rt) := by
  rcases processLine_cases b st raw with
    h1 | ⟨n, h1⟩ | ⟨s, h1⟩ | ⟨cap, h1⟩ | ⟨f, sc, rt, ch, inten, hcf, hcs, hcr, h1⟩
  · rw [h1] at h; exact Or.inl h
  · rw [h1] at h
    rw [show allRows (AState.mk (setdefaultA st.functions (mkKey b n)) (some n)
          none none).functions = allRows (setdefaultA st.functions (mkKey b n)) from rfl,
        allRows_setdefault] at h
    exact Or.inl h
  · rw [h1] at h; exact Or.inl h
  · rw [h1] at h; exact Or.inl h
  · rw [h1] at h
    rcases mem_allRows_appendRow st.functions (mkKey b f) ⟨sc, rt, ch, inten⟩ r h with
      h2 | h2
    · exact Or.inl h2
    · rw [h2]
      exact Or.inr ⟨hcs, hcr⟩

theorem noDup_processLine (b : String) (st : AState) (raw : String)
    (h : (keysOf st.functions).Nodup) :
    (keysOf (processLine b st raw).functions).Nodup := by
  rcases processLine_cases b st raw with
    h1 | ⟨n, h1⟩ | ⟨s, h1⟩ | ⟨cap, h1⟩ | ⟨f, sc, rt, ch, inten, -, -, -, h1⟩
  · rw [h1]; exact h
  · rw [h1]; exact keysOf_setdefault_noDup _ _ h
  · rw [h1]; exact h
  · rw [h1]; exact h
  · rw [h1]; exact keysOf_appendRow_noDup _ _ _ h

theorem noDup_foldl (b : String) (ls : List String) (st : AState)
    (h : (keysOf st.functions).Nodup) :
    (keysOf ((ls.foldl (processLine b) st)).functions).Nodup := by
  induction ls generalizing st with
  | nil => exact h
  | cons l ls ih => exact ih _ (noDup_processLine b st l h)

theorem noDup_runLines (b : String) (lines : List String) :
    (keysOf (runLines b lines).functions).Nodup :=
  noDup_foldl b lines initState List.nodup_nil

/-! ### Dropping empty tables -/

theorem lookupA_notMem_none (m : FuncMap) (k : String) (h : k ∉ keysOf m) :
    lookupA m k = none := by
  induction m with
  | nil => rfl
  | cons kv rest ih =>
    rw [lookupA]
    by_cases hk : kv.1 = k
    · exact absurd (show k ∈ keysOf (kv :: rest) by simp [keysOf, hk])
        h
    · rw [if_neg hk]
      refine ih (fun hm => h ?_)
      simp only [keysOf, List.map_cons]
      exact List.mem_cons_of_mem _ hm

theorem keysOf_filter_subset (m : FuncMap) (p : String × List Row → Bool) (k : String)
    (h : k ∈ keysOf (m.filter p)) : k ∈ keysOf m := by
  simp only [keysOf] at h ⊢
  obtain ⟨kv, hkv, hfst⟩ := List.mem_map.mp h
  exact List.mem_map.mpr ⟨kv, List.mem_of_mem_filter hkv, hfst⟩

theorem lookupA_filterNonempty_none (m : FuncMap) (key : String)
    (hnd : (keysOf m).Nodup) (h : lookupA m key = some []) :
    lookupA (m.filter (fun kv => !kv.2.isEmpty)) key = none := by
  induction m with
  | nil => simp [lookupA] at h
  | cons kv rest ih =>
    have hnd' : (keysOf rest).Nodup := by
      rw [keysOf, List.map_cons, List.nodup_cons] at hnd
      exact hnd.2
    have hnm : kv.1 ∉ keysOf rest := by
      rw [keysOf, List.map_cons, List.nodup_cons] at hnd
      exact hnd.1
    by_cases hk : kv.1 = key
    · rw [lookupA, if_pos hk] at h
      have hv : kv.2 = [] := by
        simpa using h
      rw [List.filter_cons, hv]
      simp only [List.isEmpty_nil, Bool.not_true, Bool.false_eq_true, if_neg]
      exact lookupA_notMem_none _ key
        (fun hm => (hk ▸ hnm) (keysOf_filter_subset rest _ key hm))
    · rw [lookupA, if_neg hk] at h
      rw [List.filter_cons]
      by_cases hp : (!kv.2.isEmpty) = true
      · rw [if_pos hp, lookupA, if_neg hk]
        exact ih hnd' h
      · rw [if_neg hp]
        exact ih hnd' h

theorem filterNonempty_eq_nil (m : FuncMap) (h : ∀ kv ∈ m, kv.2 = []) :
    m.filter (fun kv => !kv.2.isEmpty) = [] := by
  rw [List.filter_eq_nil_iff]
  intro kv hkv
  rw [h kv hkv]
  simp

theorem totalRows_zero_all_nil (m : FuncMap) (h : totalRows m = 0) :
    ∀ kv ∈ m, kv.2 = [] := by
  intro kv hkv
  unfold totalRows at h
  have := List.sum_eq_zero_iff.mp h (kv.2.length) (List.mem_map.mpr ⟨kv, hkv, rfl⟩)
  exact List.length_eq_zero.mp this

/-! ### Claim theorems: ASCII error handling and invariants -/

/-- C3: `parse_ascii` never raises on malformed content (it is a total
function of the file's lines); a structurally empty file and any file in
which no line produced a valid row yield an empty mapping. -/
theorem parse_ascii_malformed_empty (basename : String) (lines : List String) :
    parse_ascii basename [] = [] ∧
    (totalRows (runLines basename lines).functions = 0 →
       parse_ascii basename lines = []) := by
  constructor
  · rfl
  · intro h
    unfold parse_ascii
    exact filterNonempty_eq_nil _ (totalRows_zero_all_nil _ h)

/-- Witness for C3: a file of malformed lines produces no rows, and the
returned mapping is empty. -/
theorem parse_ascii_malformed_empty_witness :
    totalRows (runLines "f" ["garbage", "1 2 3", "Retention Time", "7 x"]).functions = 0
      ∧ parse_ascii "f" ["garbage", "1 2 3", "Retention Time", "7 x"] = [] :=
  ⟨rfl, (parse_ascii_malformed_empty "f"
      ["garbage", "1 2 3", "Retention Time", "7 x"]).2 rfl⟩

/-- C6: while any of the function/scan/retention-time registers is unset,
a processed line adds no row to any table; and a non-header line processed
in that state leaves the whole scanner state unchanged (dropped, not
buffered). -/
theorem no_rows_before_ready (basename : String) (st : AState) (raw : String)
    (h : st.currentFunction = none ∨ st.currentScan = none ∨ st.currentRt = none) :
    totalRows (processLine basename st raw).functions = totalRows st.functions ∧
    (funcMatch (pyStrip raw.toList) = none → scanMatch (pyStrip raw.toList) = none →
     rtMatch (pyStrip raw.toList) = none → processLine basename st raw = st) := by
  refine ⟨notReady_totalRows basename st raw h, ?_⟩
  intro hf hs hr
  unfold processLine
  by_cases he : (pyStrip raw.toList).isEmpty = true
  · rw [if_pos he]
  · rw [if_neg he]
    exact (stepLine_noHeader basename st _ hf hs hr).trans
      (dataStep_notReady basename st _ h)

/-- Witness for C6: a numeric data line in the initial state (no function,
scan or retention time yet) adds no row and leaves the state unchanged. -/
theorem no_rows_before_ready_witness :
    totalRows (processLine "f" initState "100.0 250.0").functions
        = totalRows initState.functions ∧
      processLine "f" initState "100.0 250.0" = initState :=
  ⟨(no_rows_before_ready "f" initState "100.0 250.0" (Or.inl rfl)).1,
   (no_rows_before_ready "f" initState "100.0 250.0" (Or.inl rfl)).2 rfl rfl rfl⟩

/-- C7: rows accumulated for a label are never replaced: whatever lines
follow (in particular a repeated `FUNCTION n` header with further data
blocks), the label's table grows by appending, so the final row count is
the sum over all its blocks. -/
theorem ascii_function_rows_accumulate (basename : String)
    (lines1 lines2 : List String) (key : String) (rows1 : List Row)
    (h : lookupA (runLines basename lines1).functions key = some rows1) :
    ∃ rows2, lookupA (runLines basename (lines1 ++ lines2)).functions key
        = some (rows1 ++ rows2) := by
  unfold runLines at h ⊢
  rw [List.foldl_append]
  exact lookupA_foldl basename lines2 _ key rows1 h

/-- Witness for C7: `FUNCTION 3` reappears with two further data lines and
the earlier row is still the head of the label's table. -/
theorem ascii_function_rows_accumulate_witness :
    ∃ rows2,
      lookupA (runLines "f"
          (["FUNCTION 3", "Scan 1", "Retention Time 1.0", "1 2"] ++
           ["FUNCTION 3", "Scan 2", "Retention Time 2.0", "3 4", "5 6"])).functions
          "f_Function_3"
        = some ([⟨1, 1, 1, 2⟩] ++ rows2) :=
  ascii_function_rows_accumulate "f"
    ["FUNCTION 3", "Scan 1", "Retention Time 1.0", "1 2"]
    ["FUNCTION 3", "Scan 2", "Retention Time 2.0", "3 4", "5 6"]
    "f_Function_3" [⟨1, 1, 1, 2⟩] rfl

/-- C9: every entry of the returned mapping has a nonempty table, and a
label whose accumulated table is empty after the whole file is processed is
absent from the returned mapping. -/
theorem empty_tables_dropped (basename : String) (lines : List String) :
    (∀ kv ∈ parse_ascii basename lines, kv.2 ≠ []) ∧
    (∀ key, lookupA (runLines basename lines).functions key = some [] →
       lookupA (parse_ascii basename lines) key = none) := by
  constructor
  · intro kv hkv
    have hp := List.of_mem_filter hkv
    intro hnil
    rw [hnil] at hp
    simp at hp
  · intro key h
    unfold parse_ascii
    exact lookupA_filterNonempty_none _ key (noDup_runLines basename lines) h

/-- Witness for C9: a function header with no data lines leaves its label
out of the mapping; a label that did get rows appears with a nonempty
table. -/
theorem empty_tables_dropped_witness :
    lookupA (parse_ascii "f" ["FUNCTION 7"]) "f_Function_7" = none ∧
    (("ex_Function_1",
        [(⟨1, mkQ 1 2, 100, 250⟩ : Row), ⟨1, mkQ 1 2, mkQ 203 2, 300⟩]) : String × List Row).2 ≠ [] :=
  ⟨(empty_tables_dropped "f" ["FUNCTION 7"]).2 "f_Function_7" rfl,
   (empty_tables_dropped "ex"
      ["FUNCTION 1", "Scan 1", "Retention Time 0.50", "100.0 250.0", "101.5 300.0"]).1
      _ (by decide)⟩

/-! ### The worked ASCII example -/

theorem processLine_of_ne (b : String) (st : AState) (raw : String)
    (h : (pyStrip raw.toList).isEmpty = false) :
    processLine b st raw = stepLine b st (pyStrip raw.toList) := by
  show (if (pyStrip raw.toList).isEmpty = true then st
        else stepLine b st (pyStrip raw.toList)) = stepLine b st (pyStrip raw.toList)
  rw [h]
  rfl

theorem stepLine_dataRow (b : String) (st : AState) (line : List Char)
    (f sc : Nat) (rt : PyQ) (t1 t2 : List Char) (ch inten : PyQ)
    (hf : funcMatch line = none) (hs : scanMatch line = none)
    (hr : rtMatch line = none)
    (hcf : st.currentFunction = some f) (hcs : st.currentScan = some sc)
    (hcr : st.currentRt = some rt)
    (hp : splitWsStripped line = [t1, t2])
    (hch : parseFloatL t1 = some ch) (hin : parseFloatL t2 = some inten) :
    stepLine b st line
      = { st with functions :=
            appendRow st.functions (mkKey b f) ⟨sc, rt, ch, inten⟩ } := by
  rw [stepLine_noHeader b st line hf hs hr]
  obtain ⟨fns, cf, csc, crt⟩ := st
  simp only at hcf hcs hcr
  subst hcf
  subst hcs
  subst hcr
  unfold dataStep
  simp only [hp, hch, hin]

theorem appendRow_single (k : String) (rs : List Row) (r : Row) :
    appendRow [(k, rs)] k r = [(k, rs ++ [r])] := by
  unfold appendRow containsKey
  simp

/-- C2: the five-line example file yields, for every basename, exactly the
two rows `(1, 0.50, 100.0, 250.0)` and `(1, 0.50, 101.5, 300.0)` under the
label `<basename>_Function_1` (0.50 = `mkQ 1 2`, 101.5 = `mkQ 203 2`). -/
theorem parse_ascii_example_two_rows (basename : String) :
    parse_ascii basename
        ["FUNCTION 1", "Scan 1", "Retention Time 0.50", "100.0 250.0", "101.5 300.0"]
      = [(basename ++ "_Function_1",
          [⟨1, mkQ 1 2, 100, 250⟩, ⟨1, mkQ 1 2, mkQ 203 2, 300⟩])] := by
  have hkey : mkKey basename 1 = basename ++ "_Function_1" := by
    unfold mkKey
    rw [String.append_assoc]
    rfl
  have h1 : processLine basename initState "FUNCTION 1"
      = ⟨[(mkKey basename 1, [])], some 1, none, none⟩ := by
    rw [processLine_of_ne basename initState "FUNCTION 1" rfl]
    rw [stepLine_func basename initState (pyStrip (String.toList "FUNCTION 1")) 1 rfl]
    rfl
  have h2 : processLine basename (⟨[(mkKey basename 1, [])], some 1, none, none⟩ : AState)
      "Scan 1" = ⟨[(mkKey basename 1, [])], some 1, some 1, none⟩ := by
    rw [processLine_of_ne basename _ "Scan 1" rfl]
    rw [stepLine_scan basename _ (pyStrip (String.toList "Scan 1")) 1 rfl]
  have h3 : processLine basename
      (⟨[(mkKey basename 1, [])], some 1, some 1, none⟩ : AState) "Retention Time 0.50"
      = ⟨[(mkKey basename 1, [])], some 1, some 1, some (mkQ 1 2)⟩ := by
    rw [processLine_of_ne basename _ "Retention Time 0.50" rfl]
    rw [stepLine_rt basename _ (pyStrip (String.toList "Retention Time 0.50"))
          ['0', '.', '5', '0'] rfl]
    rfl
  have h4 : processLine basename
      (⟨[(mkKey basename 1, [])], some 1, some 1, some (mkQ 1 2)⟩ : AState) "100.0 250.0"
      = ⟨[(mkKey basename 1, [⟨1, mkQ 1 2, 100, 250⟩])], some 1, some 1, some (mkQ 1 2)⟩ := by
    rw [processLine_of_ne basename _ "100.0 250.0" rfl]
    rw [stepLine_dataRow basename _ (pyStrip (String.toList "100.0 250.0")) 1 1 (mkQ 1 2)
          (String.toList "100.0") (String.toList "250.0") 100 250
          rfl rfl rfl rfl rfl rfl rfl rfl rfl]
    rw [show (⟨[(mkKey basename 1, [])], some 1, some 1, some (mkQ 1 2)⟩ : AState).functions
        = [(mkKey basename 1, [])] from rfl]
    rw [appendRow_single]
    rfl
  have h5 : processLine basename
      (⟨[(mkKey basename 1, [⟨1, mkQ 1 2, 100, 250⟩])], some 1, some 1,
         some (mkQ 1 2)⟩ : AState) "101.5 300.0"
      = ⟨[(mkKey basename 1,
            [⟨1, mkQ 1 2, 100, 250⟩, ⟨1, mkQ 1 2, mkQ 203 2, 300⟩])],
         some 1, some 1, some (mkQ 1 2)⟩ := by
    rw [processLine_of_ne basename _ "101.5 300.0" rfl]
    rw [stepLine_dataRow basename _ (pyStrip (String.toList "101.5 300.0")) 1 1 (mkQ 1 2)
          (String.toList "101.5") (String.toList "300.0") (mkQ 203 2) 300
          rfl rfl rfl rfl rfl rfl rfl rfl rfl]
    rw [show (⟨[(mkKey basename 1, [⟨1, mkQ 1 2, 100, 250⟩])], some 1, some 1,
          some (mkQ 1 2)⟩ : AState).functions
        = [(mkKey basename 1, [⟨1, mkQ 1 2, 100, 250⟩])] from rfl]
    rw [appendRow_single]
    rfl
  unfold parse_ascii runLines
  rw [List.foldl_cons, h1, List.foldl_cons, h2, List.foldl_cons, h3,
      List.foldl_cons, h4, List.foldl_cons, h5, List.foldl_nil]
  rw [show (⟨[(mkKey basename 1,
        [⟨1, mkQ 1 2, 100, 250⟩, ⟨1, mkQ 1 2, mkQ 203 2, 300⟩])],
      some 1, some 1, some (mkQ 1 2)⟩ : AState).functions
        = [(mkKey basename 1,
            [⟨1, mkQ 1 2, 100, 250⟩, ⟨1, mkQ 1 2, mkQ 203 2, 300⟩])] from rfl]
  rw [List.filter_cons]
  rw [hkey]
  rfl

/-! ### The retention-time capture always parses (C10) -/

theorem takeWhile_all (p : Char → Bool) (l : List Char)
    (h : ∀ c ∈ l, p c = true) : l.takeWhile p = l := by
  induction l with
  | nil => rfl
  | cons c r ih =>
    rw [List.takeWhile_cons, if_pos (h c (List.mem_cons_self c r))]
    rw [ih (fun d hd => h d (List.mem_cons_of_mem c hd))]

theorem takeWhile_all_append (p : Char → Bool) (a : List Char) (x : Char)
    (r : List Char) (ha : ∀ c ∈ a, p c = true) (hx : p x = false) :
    (a ++ x :: r).takeWhile p = a := by
  induction a with
  | nil =>
    rw [List.nil_append, List.takeWhile_cons, if_neg]
    rw [hx]
    exact Bool.false_ne_true
  | cons c cr ih =>
    rw [List.cons_append, List.takeWhile_cons, if_pos (ha c (List.mem_cons_self c cr))]
    rw [ih (fun d hd => ha d (List.mem_cons_of_mem c hd))]

theorem parseFloatL_digits (a : List Char) (ha : ∀ c ∈ a, c.isDigit = true)
    (hne : a ≠ []) : parseFloatL a = some (PyQ.ofNat (digitsToNat a)) := by
  obtain ⟨c, r, rfl⟩ : ∃ c r, a = c :: r := by
    cases a with
    | nil => exact absurd rfl hne
    | cons c r => exact ⟨c, r, rfl⟩
  have hc : c.isDigit = true := ha c (List.mem_cons_self c r)
  have hcm : (some c == some '-') = false := by
    apply beq_eq_false_iff_ne.mpr
    intro he
    rw [Option.some.injEq] at he
    rw [he] at hc
    exact absurd hc (by decide)
  have hcp : (some c == some '+') = false := by
    apply beq_eq_false_iff_ne.mpr
    intro he
    rw [Option.some.injEq] at he
    rw [he] at hc
    exact absurd hc (by decide)
  unfold parseFloatL
  simp only [List.head?_cons, hcm, hcp, Bool.or_self, Bool.false_eq_true, if_false]
  rw [takeWhile_all _ _ ha, List.drop_length]
  simp only [List.head?_nil]
  rw [if_neg (show ¬((none : Option Char) == some '.') = true by decide)]
  rw [if_neg (show ¬((c :: r).isEmpty = true) by simp)]
  rfl

theorem parseFloatL_digits_dot (a b : List Char)
    (ha : ∀ c ∈ a, c.isDigit = true) (hb : ∀ c ∈ b, c.isDigit = true)
    (hbne : b ≠ []) :
    parseFloatL (a ++ '.' :: b)
      = some ((PyQ.ofNat (digitsToNat a)).add
          ((PyQ.ofNat (digitsToNat b)).div (PyQ.ofNat (10 ^ b.length)))) := by
  have hh : ((a ++ '.' :: b).head? == some '-') = false ∧
      ((a ++ '.' :: b).head? == some '+') = false := by
    cases a with
    | nil => constructor <;> rfl
    | cons c r =>
      have hc : c.isDigit = true := ha c (List.mem_cons_self c r)
      constructor
      · apply beq_eq_false_iff_ne.mpr
        intro he
        rw [List.cons_append, List.head?_cons, Option.some.injEq] at he
        rw [he] at hc
        exact absurd hc (by decide)
      · apply beq_eq_false_iff_ne.mpr
        intro he
        rw [List.cons_append, List.head?_cons, Option.some.injEq] at he
        rw [he] at hc
        exact absurd hc (by decide)
  unfold parseFloatL
  rw [hh.1, hh.2]
  simp only [Bool.or_self, Bool.false_eq_true, if_false]
  rw [takeWhile_all_append _ a '.' b ha (by decide)]
  rw [List.drop_left]
  simp only [List.head?_cons]
  rw [if_pos (show ((some '.' : Option Char) == some '.') = true by decide)]
  rw [show ('.' :: b).tail = b from rfl]
  rw [takeWhile_all _ _ hb, List.drop_length]
  rw [if_neg]
  · rfl
  · intro hcon
    rw [Bool.and_eq_true] at hcon
    exact hbne (List.isEmpty_iff.mp hcon.2)

theorem capNum_parses (cs cap : List Char) (h : capNum cs = some cap) :
    ∃ v, parseFloatL cap = some v := by
  unfold capNum at h
  by_cases hdot :
      (((cs.drop (cs.takeWhile Char.isDigit).length).head? == some '.')) = true
  · rw [if_pos hdot] at h
    by_cases hb :
        ((cs.drop (cs.takeWhile Char.isDigit).length).tail.takeWhile
          Char.isDigit).isEmpty = true
    · rw [if_pos hb] at h
      by_cases hA : (cs.takeWhile Char.isDigit).isEmpty = true
      · rw [if_pos hA] at h
        exact Option.noConfusion h
      · rw [if_neg hA] at h
        rw [Option.some.injEq] at h
        subst h
        exact ⟨_, parseFloatL_digits _ (fun c hc => List.mem_takeWhile_imp hc)
          (fun he => hA (by rw [he]; rfl))⟩
    · rw [if_neg hb] at h
      rw [Option.some.injEq] at h
      subst h
      exact ⟨_, parseFloatL_digits_dot _ _
        (fun c hc => List.mem_takeWhile_imp hc)
        (fun c hc => List.mem_takeWhile_imp hc)
        (fun he => hb (by rw [he]; rfl))⟩
  · rw [if_neg hdot] at h
    by_cases hA : (cs.takeWhile Char.isDigit).isEmpty = true
    · rw [if_pos hA] at h
      exact Option.noConfusion h
    · rw [if_neg hA] at h
      rw [Option.some.injEq] at h
      subst h
      exact ⟨_, parseFloatL_digits _ (fun c hc => List.mem_takeWhile_imp hc)
        (fun he => hA (by rw [he]; rfl))⟩

/-- C10: every line matched by the retention-time pattern yields a capture
that parses as a float, so processing such a line always sets the
retention-time register to the parsed value (the parse-failure fallback is
unreachable). -/
theorem rt_capture_always_parses (basename : String) (st : AState) (raw : String)
    (cap : List Char) (h : rtMatch (pyStrip raw.toList) = some cap) :
    ∃ v, parseFloatL cap = some v ∧
      (processLine basename st raw).currentRt = some v := by
  obtain ⟨-, -, hne⟩ := rtMatch_excludes _ _ h
  obtain ⟨v, hv⟩ : ∃ v, parseFloatL cap = some v := by
    unfold rtMatch at h
    cases hp : ciPrefixMatch "Retention Time".toList (pyStrip raw.toList) with
    | none =>
      rw [hp] at h
      exact Option.noConfusion (show (none : Option (List Char)) = some cap from h)
    | some r1 =>
      rw [hp] at h
      replace h : (match matchSpaces1 r1 with
          | none => none
          | some r2 => capNum r2) = some cap := h
      cases hsp : matchSpaces1 r1 with
      | none =>
        rw [hsp] at h
        exact Option.noConfusion (show (none : Option (List Char)) = some cap from h)
      | some r2 =>
        rw [hsp] at h
        replace h : capNum r2 = some cap := h
        exact capNum_parses r2 cap h
  refine ⟨v, hv, ?_⟩
  rw [processLine_of_ne basename st raw
      (by cases hl : pyStrip raw.toList with
          | nil => exact absurd hl hne
          | cons c cs => rfl)]
  rw [stepLine_rt basename st _ cap h, hv]

/-- Witness for C10: the example retention-time line sets the register to
0.50. -/
theorem rt_capture_always_parses_witness :
    ∃ v, parseFloatL ['0', '.', '5', '0'] = some v ∧
      (processLine "f" initState "Retention Time 0.50").currentRt = some v :=
  rt_capture_always_parses "f" initState "Retention Time 0.50" ['0', '.', '5', '0'] rfl

/-! ### The binary decoder's row construction -/

theorem mkKey_one (b : String) : mkKey b 1 = b ++ "_Function_1" := by
  unfold mkKey
  rw [String.append_assoc]
  rfl

theorem buildRowsList_ok (v : CdfVars) (is : List Nat)
    (h : ∀ i ∈ is, i < v.point_count.length) :
    buildRowsList v is = .ok ((is.map (scanRows v)).flatten) := by
  induction is with
  | nil => rfl
  | cons i is ih =>
    rw [buildRowsList, if_pos (h i (List.mem_cons_self i is))]
    rw [ih (fun j hj => h j (List.mem_cons_of_mem i hj))]
    rfl

theorem parse_cdf_ok (basename : String) (ds : Dataset) (v : CdfVars)
    (hv : readVars ds = .ok v)
    (hlen : v.scan_index.length ≤ v.point_count.length) :
    parse_cdf basename ds
      = .ok [(mkKey basename 1,
          ((List.range v.scan_index.length).map (scanRows v)).flatten)] := by
  unfold parse_cdf
  rw [hv]
  show (match buildRowsList v (List.range v.scan_index.length) with
        | .error e => .error e
        | .ok rows => .ok [(mkKey basename 1, rows)])
      = Except.ok [(mkKey basename 1,
          ((List.range v.scan_index.length).map (scanRows v)).flatten)]
  rw [buildRowsList_ok v _ (fun i hi => lt_of_lt_of_le (List.mem_range.mp hi) hlen)]

theorem pySlice_nonneg {α : Type} (l : List α) (a b : Int)
    (ha : 0 ≤ a) (hb : 0 ≤ b) :
    pySlice l a (a + b) = (l.drop a.toNat).take b.toNat := by
  unfold pySlice pyIdx
  rw [if_neg (not_lt.mpr ha), if_neg (not_lt.mpr (add_nonneg ha hb))]
  have htn : (a + b).toNat = a.toNat + b.toNat := by omega
  rw [htn]
  rw [List.drop_take]
  rcases le_or_lt a.toNat l.length with hcase | hcase
  · rw [min_eq_left hcase]
    rcases le_or_lt (a.toNat + b.toNat) l.length with h2 | h2
    · rw [min_eq_left h2, show a.toNat + b.toNat - a.toNat = b.toNat from by omega]
    · rw [min_eq_right (le_of_lt h2)]
      have e1 : (l.drop a.toNat).take (l.length - a.toNat) = l.drop a.toNat :=
        List.take_of_length_le (by rw [List.length_drop])
      have e2 : (l.drop a.toNat).take b.toNat = l.drop a.toNat :=
        List.take_of_length_le (by rw [List.length_drop]; omega)
      rw [e1, e2]
  · rw [min_eq_right (le_of_lt hcase)]
    rw [List.drop_eq_nil_of_le (le_refl l.length)]
    rw [List.drop_eq_nil_of_le (le_of_lt hcase)]
    rw [List.take_nil, List.take_nil]

theorem scanRows_eq_spec (v : CdfVars) (i : Nat)
    (hs : 0 ≤ pyInt (v.scan_index.getD i 0))
    (hc : 0 ≤ pyInt (v.point_count.getD i 0)) :
    scanRows v i = specScanRows v i := by
  simp only [scanRows, specScanRows]
  rw [pySlice_nonneg _ _ _ hs hc, pySlice_nonneg _ _ _ hs hc]

deriving instance DecidableEq for Except

/-! ### Claim theorems: binary decoder rows (C1) -/

/-- C1 (amended): when `parse_cdf` succeeds and every scan's start offset
and point count are nonnegative, the mapping has exactly one entry, labelled
`<basename>_Function_1`, whose table is, scan by scan, one row per
`(channel, intensity)` pair of the sub-ranges `[start, start+count)` with
`Scan = i + 1` and the retention time of index `i` (0.0 out of bounds). -/
theorem parse_cdf_subrange_rows (basename : String) (ds : Dataset) (v : CdfVars)
    (hv : readVars ds = .ok v)
    (hlen : v.scan_index.length ≤ v.point_count.length)
    (hnn : ∀ i, i < v.scan_index.length →
       0 ≤ pyInt (v.scan_index.getD i 0) ∧ 0 ≤ pyInt (v.point_count.getD i 0)) :
    parse_cdf basename ds
      = .ok [(basename ++ "_Function_1",
          ((List.range v.scan_index.length).map (specScanRows v)).flatten)] := by
  rw [parse_cdf_ok basename ds v hv hlen, mkKey_one]
  rw [List.map_congr_left (fun i hi =>
    scanRows_eq_spec v i (hnn i (List.mem_range.mp hi)).1 (hnn i (List.mem_range.mp hi)).2)]

/-- A dataset with two scans of 2 and 1 points. -/
def dsTwoScans : Dataset :=
  ⟨[("scan_index", [0, 2]), ("point_count", [2, 1]),
    ("mass_values", [10, 11, 12]), ("intensity_values", [5, 6, 7]),
    ("scan_acquisition_time", [1, 2])]⟩

/-- The arrays `readVars` extracts from `dsTwoScans`. -/
def vTwoScans : CdfVars :=
  ⟨[0, 2], [2, 1], [10, 11, 12], [5, 6, 7], [1, 2]⟩

/-- Witness for C1: on a well-formed two-scan dataset the amended
description matches the produced table exactly. -/
theorem parse_cdf_subrange_rows_witness :
    parse_cdf "ex" dsTwoScans
      = .ok [("ex" ++ "_Function_1",
          ((List.range (vTwoScans.scan_index.length)).map (specScanRows vTwoScans)).flatten)] :=
  parse_cdf_subrange_rows "ex" dsTwoScans vTwoScans rfl (by decide) (by decide)

/-- A dataset whose single scan has a negative `point_count`. -/
def dsNegCount : Dataset :=
  ⟨[("scan_index", [1]), ("point_count", [⟨-5, 1⟩]),
    ("mass_values", [0, 1, 2, 3, 4, 5, 6, 7, 8, 9]),
    ("intensity_values", [0, 10, 20, 30, 40, 50, 60, 70, 80, 90]),
    ("scan_acquisition_time", [0])]⟩

/-- The arrays `readVars` extracts from `dsNegCount`. -/
def vNegCount : CdfVars :=
  ⟨[1], [⟨-5, 1⟩], [0, 1, 2, 3, 4, 5, 6, 7, 8, 9],
   [0, 10, 20, 30, 40, 50, 60, 70, 80, 90], [0]⟩

/-- Counterexample to C1 as stated: with `start = 1` and `count = -5`,
Python's slice `l[1:-4]` is nonempty, so `parse_cdf` succeeds with five
rows, while the claim's sub-range `[1, -4)` holds no pairs at all: the
produced table is not the claim's table. -/
theorem parse_cdf_negative_count_cex :
    readVars dsNegCount = .ok vNegCount ∧
    parse_cdf "f" dsNegCount
      = .ok [("f_Function_1",
          [⟨1, 0, 1, 10⟩, ⟨1, 0, 2, 20⟩, ⟨1, 0, 3, 30⟩, ⟨1, 0, 4, 40⟩, ⟨1, 0, 5, 50⟩])] ∧
    ((List.range vNegCount.scan_index.length).map (specScanRows vNegCount)).flatten = [] :=
  ⟨rfl, by decide, rfl⟩

/-! ### Claim theorems: binary decoder error handling (C4) -/

/-- A dataset missing both `intensity_values` and `intensity`. -/
def dsNoIntensity : Dataset :=
  ⟨[("scan_index", [0]), ("point_count", [1]),
    ("mass_values", [10]), ("scan_acquisition_time", [1])]⟩

/-- Counterexample to C4 as stated: the error raised for a missing
intensity variable wraps the cause, but its message does not identify the
file (the basename does not occur in it). -/
theorem parse_cdf_error_no_filename_cex :
    parse_cdf "mydata" dsNoIntensity
      = .error (.valueError
          "CDF parsing error: \x27Variable for intensity values not found in CDF file\x27") ∧
    occursIn "mydata".toList
        "CDF parsing error: \x27Variable for intensity values not found in CDF file\x27".toList
      = false :=
  ⟨rfl, by decide⟩

theorem requireVar_none (ds : Dataset) (name : String)
    (h : ds.getVar name = none) :
    requireVar ds name = .error (.keyError name) := by
  unfold requireVar
  rw [h]

theorem readMass_none (ds : Dataset)
    (h1 : ds.getVar "mass_values" = none) (h2 : ds.getVar "mass_range" = none)
    (h3 : ds.getVar "mz" = none) :
    readMass ds = .error (.keyError "Variable for mass values not found in CDF file") := by
  unfold readMass
  rw [h1, h2, h3]

theorem readIntensity_none (ds : Dataset)
    (h1 : ds.getVar "intensity_values" = none) (h2 : ds.getVar "intensity" = none) :
    readIntensity ds
      = .error (.keyError "Variable for intensity values not found in CDF file") := by
  unfold readIntensity
  rw [h1, h2]

theorem readRt_none (ds : Dataset)
    (h1 : ds.getVar "scan_acquisition_time" = none)
    (h2 : ds.getVar "scan_time" = none) (h3 : ds.getVar "retention_time" = none) :
    readRt ds
      = .error (.keyError "Variable for retention time not found in CDF file") := by
  unfold readRt
  rw [h1, h2, h3]

/-- A required array of `parse_cdf` cannot be located under any of its
accepted names: there is no `scan_index`, or no `point_count`, or none of
the channel aliases, or none of the intensity aliases, or none of the
retention-time aliases.  In the embedding this is exactly the condition
under which the guarded variable-reading block raises. -/
def missingRequired (ds : Dataset) : Prop :=
  ds.getVar "scan_index" = none ∨
  ds.getVar "point_count" = none ∨
  (ds.getVar "mass_values" = none ∧ ds.getVar "mass_range" = none ∧
    ds.getVar "mz" = none) ∨
  (ds.getVar "intensity_values" = none ∧ ds.getVar "intensity" = none) ∨
  (ds.getVar "scan_acquisition_time" = none ∧ ds.getVar "scan_time" = none ∧
    ds.getVar "retention_time" = none)

theorem readVars_error_of_missing (ds : Dataset) (h : missingRequired ds) :
    ∃ e, readVars ds = .error e := by
  unfold readVars
  cases hsi : requireVar ds "scan_index" with
  | error e => exact ⟨e, rfl⟩
  | ok si =>
    cases hpc : requireVar ds "point_count" with
    | error e => exact ⟨e, rfl⟩
    | ok pc =>
      cases hm : readMass ds with
      | error e => exact ⟨e, rfl⟩
      | ok mv =>
        cases hi : readIntensity ds with
        | error e => exact ⟨e, rfl⟩
        | ok iv =>
          cases hr : readRt ds with
          | error e => exact ⟨e, rfl⟩
          | ok rv =>
            exfalso
            rcases h with h | h | h | h | h
            · rw [requireVar_none ds _ h] at hsi
              exact Except.noConfusion hsi
            · rw [requireVar_none ds _ h] at hpc
              exact Except.noConfusion hpc
            · rw [readMass_none ds h.1 h.2.1 h.2.2] at hm
              exact Except.noConfusion hm
            · rw [readIntensity_none ds h.1 h.2] at hi
              exact Except.noConfusion hi
            · rw [readRt_none ds h.1 h.2.1 h.2.2] at hr
              exact Except.noConfusion hr

/-- C4 (amended): whenever any required array cannot be located under any
of its accepted names (in particular when both `intensity_values` and
`intensity` are absent) -- the only way the guarded reading block can fail --
`parse_cdf` fails as a whole with a single `ValueError` whose message wraps
the underlying cause, and no table (partial or otherwise) is returned.
The error does not identify the file: the result is the same for every
basename. -/
theorem parse_cdf_missing_required_errors (basename : String) (ds : Dataset)
    (h : missingRequired ds) :
    ∃ cause, parse_cdf basename ds
        = .error (.valueError ("CDF parsing error: " ++ cause)) ∧
      ∀ basename2 : String, parse_cdf basename2 ds = parse_cdf basename ds := by
  obtain ⟨e, he⟩ := readVars_error_of_missing ds h
  refine ⟨e.toMessage, ?_, ?_⟩
  · unfold parse_cdf
    rw [he]
  · intro basename2
    unfold parse_cdf
    rw [he]

/-- Witness for C4 (amended): the concrete no-intensity dataset fails with
the wrapping error, identically for every basename. -/
theorem parse_cdf_missing_required_errors_witness :
    ∃ cause, parse_cdf "mydata2" dsNoIntensity
        = .error (.valueError ("CDF parsing error: " ++ cause)) ∧
      ∀ basename2 : String,
        parse_cdf basename2 dsNoIntensity = parse_cdf "mydata2" dsNoIntensity :=
  parse_cdf_missing_required_errors "mydata2" dsNoIntensity
    (Or.inr (Or.inr (Or.inr (Or.inl ⟨rfl, rfl⟩))))

/-! ### Claim theorems: binary scan numbering (C8) -/

theorem map_scan_mk (i : Nat) (rt : PyQ) (l : List (PyQ × PyQ)) :
    ((l.map (fun p => (⟨i + 1, rt, p.1, p.2⟩ : Row))).map Row.scan)
      = List.replicate l.length (i + 1) := by
  induction l with
  | nil => rfl
  | cons p ps ih =>
    simp only [List.map_cons, List.length_cons, List.replicate_succ]
    rw [ih]

theorem scanRows_scans (v : CdfVars) (i : Nat) :
    (scanRows v i).map Row.scan = List.replicate (scanRows v i).length (i + 1) := by
  simp only [scanRows]
  rw [List.length_map]
  exact map_scan_mk i _ _

theorem dedup_replicate_pos (k : Nat) (x : Nat) (h : 1 ≤ k) :
    (List.replicate k x).dedup = [x] := by
  induction k with
  | zero => exact absurd h (by decide)
  | succ k ih =>
    rw [List.replicate_succ]
    rcases Nat.eq_zero_or_pos k with h0 | hpos
    · subst h0
      rw [show List.replicate 0 x = [] from rfl]
      rw [List.dedup_cons_of_not_mem (List.not_mem_nil x)]
      rfl
    · rw [List.dedup_cons_of_mem (List.mem_replicate.mpr ⟨Nat.pos_iff_ne_zero.mp hpos, rfl⟩)]
      exact ih hpos

theorem dedup_append_replicate (xs : List Nat) (m y : Nat) (hm : 1 ≤ m)
    (hy : y ∉ xs) : (xs ++ List.replicate m y).dedup = xs.dedup ++ [y] := by
  induction xs with
  | nil =>
    rw [List.nil_append, dedup_replicate_pos m y hm]
    rfl
  | cons x xs ih =>
    have hxy : x ≠ y := fun he => hy (by rw [← he]; exact List.mem_cons_self x xs)
    have hy' : y ∉ xs := fun hmem => hy (List.mem_cons_of_mem x hmem)
    rw [List.cons_append]
    by_cases hx : x ∈ xs ++ List.replicate m y
    · have hx' : x ∈ xs := by
        rcases List.mem_append.mp hx with h | h
        · exact h
        · exact absurd (List.eq_of_mem_replicate h) hxy
      rw [List.dedup_cons_of_mem hx, List.dedup_cons_of_mem hx']
      exact ih hy'
    · have hx' : x ∉ xs := fun hmem => hx (List.mem_append.mpr (Or.inl hmem))
      rw [List.dedup_cons_of_not_mem hx, List.dedup_cons_of_not_mem hx']
      rw [ih hy', List.cons_append]

theorem dedup_flatten_blocks (n : Nat) (k : Nat → Nat)
    (hk : ∀ i, i < n → 1 ≤ k i) :
    (((List.range n).map (fun i => List.replicate (k i) (i + 1))).flatten).dedup
      = (List.range n).map (fun i => i + 1) := by
  induction n with
  | zero => rfl
  | succ n ih =>
    rw [List.range_succ, List.map_append, List.flatten_append, List.map_append]
    rw [show ((([n]).map (fun i => List.replicate (k i) (i + 1))).flatten)
        = List.replicate (k n) (n + 1) from by simp]
    have hnm : (n + 1) ∉
        ((List.range n).map (fun i => List.replicate (k i) (i + 1))).flatten := by
      intro hmem
      rw [List.mem_flatten] at hmem
      obtain ⟨l, hl, hml⟩ := hmem
      rw [List.mem_map] at hl
      obtain ⟨i, hi, rfl⟩ := hl
      have hEq := List.eq_of_mem_replicate hml
      have hi' := List.mem_range.mp hi
      omega
    rw [dedup_append_replicate _ _ _ (hk n (by omega)) hnm]
    rw [ih (fun i hi => hk i (by omega))]
    rfl

/-- C8 (amended): when every scan contributes at least one row, the
produced table's distinct `Scan` values, in order of first appearance, are
exactly `1, 2, …, n_scans`, independent of the raw offset values. -/
theorem parse_cdf_scan_values_dense (basename : String) (ds : Dataset) (v : CdfVars)
    (hv : readVars ds = .ok v)
    (hlen : v.scan_index.length ≤ v.point_count.length)
    (hne : ∀ i, i < v.scan_index.length → scanRows v i ≠ []) :
    ∃ rows, parse_cdf basename ds = .ok [(basename ++ "_Function_1", rows)] ∧
      (rows.map Row.scan).dedup
        = (List.range v.scan_index.length).map (fun i => i + 1) := by
  refine ⟨((List.range v.scan_index.length).map (scanRows v)).flatten, ?_, ?_⟩
  · rw [parse_cdf_ok basename ds v hv hlen, mkKey_one]
  · have h1 : (((List.range v.scan_index.length).map (scanRows v)).flatten).map Row.scan
        = ((List.range v.scan_index.length).map
            (fun i => List.replicate ((scanRows v i).length) (i + 1))).flatten := by
      rw [List.map_flatten, List.map_map]
      exact congrArg List.flatten
        (List.map_congr_left (fun i _ => scanRows_scans v i))
    rw [h1]
    exact dedup_flatten_blocks _ _ (fun i hi => by
      have hne' := hne i hi
      cases hsr : (scanRows v i) with
      | nil => exact absurd hsr hne'
      | cons a b => simp)

/-- Witness for C8 (amended): the two-scan dataset has distinct scans
exactly `[1, 2]`. -/
theorem parse_cdf_scan_values_dense_witness :
    ∃ rows, parse_cdf "ex2" dsTwoScans = .ok [("ex2" ++ "_Function_1", rows)] ∧
      (rows.map Row.scan).dedup
        = (List.range vTwoScans.scan_index.length).map (fun i => i + 1) :=
  parse_cdf_scan_values_dense "ex2" dsTwoScans vTwoScans rfl (by decide) (by decide)

/-- A dataset with one scan of zero points. -/
def dsEmptyScan : Dataset :=
  ⟨[("scan_index", [0]), ("point_count", [0]),
    ("mass_values", []), ("intensity_values", []),
    ("scan_acquisition_time", [0])]⟩

/-- Counterexample to C8 as stated: a scan with zero points contributes no
rows, so the table's distinct `Scan` values are empty, not `{1}`. -/
theorem parse_cdf_empty_scan_cex :
    parse_cdf "f" dsEmptyScan = .ok [("f_Function_1", [])] ∧
    (([] : List Row).map Row.scan).dedup ≠ (List.range 1).map (fun i => i + 1) :=
  ⟨rfl, by decide⟩

/-! ### Claim theorems: per-row scan/retention-time invariants (C5) -/

/-- Counterexample to C5 as stated: an ASCII file declaring `Scan 2` before
`Scan 1` produces the scan sequence `[2, 1, 1]`, which is not
non-decreasing; moreover its last two rows share `Scan = 1` but carry
different retention times, so no single retention time is "declared for"
that scan value. -/
theorem parse_ascii_scan_order_cex :
    parse_ascii "f"
        ["FUNCTION 1", "Scan 2", "Retention Time 1.0", "1 2",
         "Scan 1", "3 4", "Retention Time 2.0", "5 6"]
      = [("f_Function_1", [⟨2, 1, 1, 2⟩, ⟨1, 1, 3, 4⟩, ⟨1, 2, 5, 6⟩])] ∧
    ¬ List.Chain' (· ≤ ·)
        (([⟨2, 1, 1, 2⟩, ⟨1, 1, 3, 4⟩, ⟨1, 2, 5, 6⟩] : List Row).map Row.scan) ∧
    (⟨1, 1, 3, 4⟩ : Row).scan = (⟨1, 2, 5, 6⟩ : Row).scan ∧
    (⟨1, 1, 3, 4⟩ : Row).rt ≠ (⟨1, 2, 5, 6⟩ : Row).rt := by
  refine ⟨by decide, ?_, by decide, by decide⟩
  intro hch
  rw [show (([⟨2, 1, 1, 2⟩, ⟨1, 1, 3, 4⟩, ⟨1, 2, 5, 6⟩] : List Row).map Row.scan)
      = [2, 1, 1] from by decide] at hch
  rw [List.chain'_cons] at hch
  exact absurd hch.1 (by decide)

theorem pairwise_flatten_blocks (n : Nat) (k : Nat → Nat) :
    List.Pairwise (· ≤ ·)
      (((List.range n).map (fun i => List.replicate (k i) (i + 1))).flatten) := by
  induction n with
  | zero => exact List.Pairwise.nil
  | succ n ih =>
    rw [List.range_succ, List.map_append, List.flatten_append]
    rw [show ((([n]).map (fun i => List.replicate (k i) (i + 1))).flatten)
        = List.replicate (k n) (n + 1) from by simp]
    rw [List.pairwise_append]
    refine ⟨ih, List.pairwise_replicate.mpr (Or.inr le_rfl), ?_⟩
    intro x hx y hy
    rw [List.mem_flatten] at hx
    obtain ⟨l, hl, hml⟩ := hx
    rw [List.mem_map] at hl
    obtain ⟨i, hi, rfl⟩ := hl
    have hEq := List.eq_of_mem_replicate hml
    have hy' := List.eq_of_mem_replicate hy
    have hi' := List.mem_range.mp hi
    omega

theorem mem_scanRows (v : CdfVars) (i : Nat) (r : Row) (h : r ∈ scanRows v i) :
    r.scan = i + 1 ∧
    r.rt = (if i < v.rt_vals.length then v.rt_vals.getD i 0 else 0) := by
  simp only [scanRows] at h
  rw [List.mem_map] at h
  obtain ⟨p, hp, rfl⟩ := h
  exact ⟨rfl, rfl⟩

/-- C5 (amended): for binary input, the `Scan` column is `index + 1` scan
by scan, hence non-decreasing, and every row's `RetentionTime` is the
retention time of its scan's index (`0.0` out of bounds); for ASCII input
each emitted row carries exactly the scan id and retention time most
recently declared when its data line was read (the scan sequence need not
be monotone). -/
theorem rows_carry_declared_state :
    (∀ (basename : String) (ds : Dataset) (v : CdfVars),
        readVars ds = .ok v → v.scan_index.length ≤ v.point_count.length →
        ∃ rows, parse_cdf basename ds = .ok [(basename ++ "_Function_1", rows)] ∧
          List.Chain' (· ≤ ·) (rows.map Row.scan) ∧
          ∀ r ∈ rows, 1 ≤ r.scan ∧ r.scan ≤ v.scan_index.length ∧
            r.rt = (if r.scan - 1 < v.rt_vals.length
                    then v.rt_vals.getD (r.scan - 1) 0 else 0)) ∧
    (∀ (basename : String) (st : AState) (raw : String) (r : Row),
        r ∈ allRows (processLine basename st raw).functions →
        r ∈ allRows st.functions ∨
          (st.currentScan = some r.scan ∧ st.currentRt = some r.rt)) := by
  constructor
  · intro basename ds v hv hlen
    refine ⟨((List.range v.scan_index.length).map (scanRows v)).flatten, ?_, ?_, ?_⟩
    · rw [parse_cdf_ok basename ds v hv hlen, mkKey_one]
    · have h1 : (((List.range v.scan_index.length).map (scanRows v)).flatten).map Row.scan
          = ((List.range v.scan_index.length).map
              (fun i => List.replicate ((scanRows v i).length) (i + 1))).flatten := by
        rw [List.map_flatten, List.map_map]
        exact congrArg List.flatten
          (List.map_congr_left (fun i _ => scanRows_scans v i))
      rw [h1]
      exact (pairwise_flatten_blocks _ _).chain'
    · intro r hr
      rw [List.mem_flatten] at hr
      obtain ⟨l, hl, hml⟩ := hr
      rw [List.mem_map] at hl
      obtain ⟨i, hi, rfl⟩ := hl
      obtain ⟨hscan, hrt⟩ := mem_scanRows v i r hml
      have hi' := List.mem_range.mp hi
      refine ⟨by omega, by omega, ?_⟩
      rw [hrt, hscan]
      simp only [Nat.add_sub_cancel]
  · exact fun basename st raw r h => allRows_processLine_mem basename st raw r h

/-- Witness for C5 (amended): the two-scan dataset satisfies the binary
part, and an emitted ASCII row carries the current scan and retention
time. -/
theorem rows_carry_declared_state_witness :
    (∃ rows, parse_cdf "ex3" dsTwoScans = .ok [("ex3" ++ "_Function_1", rows)] ∧
       List.Chain' (· ≤ ·) (rows.map Row.scan) ∧
       ∀ r ∈ rows, 1 ≤ r.scan ∧ r.scan ≤ vTwoScans.scan_index.length ∧
         r.rt = (if r.scan - 1 < vTwoScans.rt_vals.length
                 then vTwoScans.rt_vals.getD (r.scan - 1) 0 else 0)) ∧
    ((⟨1, 0, 5, 7⟩ : Row) ∈ allRows (⟨[], some 1, some 1, some 0⟩ : AState).functions ∨
      ((⟨[], some 1, some 1, some 0⟩ : AState).currentScan = some 1 ∧
       (⟨[], some 1, some 1, some 0⟩ : AState).currentRt = some 0)) :=
  ⟨rows_carry_declared_state.1 "ex3" dsTwoScans vTwoScans rfl (by decide),
   rows_carry_declared_state.2 "w" ⟨[], some 1, some 1, some 0⟩ "5.0 7.0"
     ⟨1, 0, 5, 7⟩ (by decide)⟩
